import Mathlib

/-!
Shallow embedding of the position-mirroring engine of `sync_operations.py`
(kiteconnect-trading-system).  Quantities are integers (`ℤ`), margins and
prices are exact rationals (`ℚ`, modelling Python floats), strings are
`String`.  Broker effects are modelled by explicit parameters: a `Bool`
telling whether an account has a live session (`kite`), resolved last
prices, and a success oracle for order submissions.
-/

/-- Model of Python `str.upper()` (ASCII case mapping, as used on the
exchange and flag strings in the source). -/
def pyUpper (s : String) : String := ⟨s.data.map Char.toUpper⟩

/-- Model of Python `str.strip()`: drop whitespace from both ends. -/
def pyStrip (s : String) : String :=
  ⟨((s.data.dropWhile Char.isWhitespace).reverse.dropWhile Char.isWhitespace).reverse⟩

/-- `lot_sizes_config.json` fallback default (`sync_operations.py` line 212). -/
def NFO_LOT_SIZE : ℤ := 65

/-- `lot_sizes_config.json` fallback default (`sync_operations.py` line 212). -/
def BFO_LOT_SIZE : ℤ := 20

/-- `lot_sizes_config.json` fallback default (`sync_operations.py` line 213). -/
def NFO_MAX_QUANTITY : ℤ := 1755

/-- `lot_sizes_config.json` fallback default (`sync_operations.py` line 213). -/
def BFO_MAX_QUANTITY : ℤ := 2000

/-- `_get_max_quantity(exchange)` (line 221). -/
def _get_max_quantity (exchange : String) : ℤ :=
  if pyUpper exchange = "NFO" then NFO_MAX_QUANTITY else BFO_MAX_QUANTITY

/-- Body of `round_to_lot_size` (lines 284-292) with the lot size it reads
from module config factored out as a parameter: `0` if `lot_size <= 0` or
`quantity <= 0`, else `ceil(quantity / lot_size) * lot_size`. -/
def round_to_lot_size_with (lot_size : ℤ) (quantity : ℚ) : ℤ :=
  if lot_size ≤ 0 then 0
  else if quantity ≤ 0 then 0
  else ⌈quantity / (lot_size : ℚ)⌉ * lot_size

/-- The lot size chosen in `round_to_lot_size` (line 286):
`NFO_LOT_SIZE if exchange.upper() == "NFO" else BFO_LOT_SIZE`. -/
def lot_size_for (exchange : String) : ℤ :=
  if pyUpper exchange = "NFO" then NFO_LOT_SIZE else BFO_LOT_SIZE

/-- `round_to_lot_size(quantity, exchange)` (lines 284-292). -/
def round_to_lot_size (quantity : ℚ) (exchange : String) : ℤ :=
  round_to_lot_size_with (lot_size_for exchange) quantity

/-- The exception raised by `_place_market_order_recursive` when a chunk
submission fails: the message names the symbol and exchange, and (in the
split branch, line 275) the chunk quantity attempted. -/
structure OrderError where
  symbol : String
  exchange : String
  qty : Option ℤ
deriving DecidableEq

/-- `_place_market_order_recursive` (lines 225-281), run against a broker
whose `place_order` call for slice `i` succeeds iff `ok i`.  Returns the
chunk quantities submitted (in order; the trailing one may be the failing
attempt) together with `some` raised `OrderError` when a submission
failed, `none` on success.  The Python recursion has no explicit bound;
`fuel` makes it total, and `q.toNat` fuel is enough whenever the cap is
positive. -/
def _place_market_order_recursive (ok : ℕ → Bool) (max_qty : ℤ)
    (symbol exchange : String) : ℕ → ℕ → ℤ → List ℤ × Option OrderError
  | 0, _, _ => ([], none)
  | fuel + 1, slice_index, order_qty =>
    if order_qty ≤ 0 then ([], none)
    else if order_qty ≤ max_qty then
      if ok slice_index then ([order_qty], none)
      else ([order_qty], some ⟨symbol, exchange, none⟩)
    else
      if ok slice_index then
        let r := _place_market_order_recursive ok max_qty symbol exchange
          fuel (slice_index + 1) (order_qty - max_qty)
        (max_qty :: r.1, r.2)
      else ([max_qty], some ⟨symbol, exchange, some max_qty⟩)

/-- The chunk quantities `_place_market_order_recursive` emits when every
submission succeeds, as a function of the per-exchange cap. -/
def place_chunks_gen (max_qty order_qty : ℤ) : List ℤ :=
  (_place_market_order_recursive (fun _ => true) max_qty "" ""
    order_qty.toNat 1 order_qty).1

/-- The chunk quantities an order of `order_qty` on `exchange` is split
into (lines 225-281 with the cap from `_get_max_quantity`). -/
def _place_market_order_chunks (exchange : String) (order_qty : ℤ) : List ℤ :=
  place_chunks_gen (_get_max_quantity exchange) order_qty

/-- Outcome of `mimic_position_in_account` (lines 310-412), abstracting the
console output: `skipped` for every `return False` path that issues no
order, `noTrade` for the `return True` paths that issue no order (delta
below one lot), `trade t q` when it submits a trade of transaction type
`t` and (positive) magnitude `q` to the order layer. -/
inductive MimicResult
  | skipped
  | noTrade
  | trade (transaction_type : String) (order_qty : ℤ)
deriving DecidableEq

/-- Outcome of `close_position_in_account` (lines 117-183): `failed` for
`return False` paths before any order, `trivialSuccess` for the
`order_qty_rounded == 0` early `return True` (line 141-143), `order t q`
when it submits a closing order. -/
inductive CloseResult
  | failed
  | trivialSuccess
  | order (transaction_type : String) (order_qty : ℤ)
deriving DecidableEq

/-- `intended_proportional_qty` (lines 327-331):
`(target_total_margin / base_total_margin) * abs(base_quantity)` when
`base_total_margin` is truthy and positive, else `0`.  `none` models a
`None` margin (fetch failure). -/
def intended_proportional_qty (base_total_margin : Option ℚ)
    (target_total_margin : ℚ) (base_quantity : ℤ) : ℚ :=
  match base_total_margin with
  | some btm =>
    if 0 < btm then (target_total_margin / btm) * |(base_quantity : ℚ)| else 0
  | none => 0

/-- `intended_qty` (line 333): the proportional quantity rounded up to the
lot size of the (already upper-cased) exchange. -/
def intended_qty (exchange : String) (base_total_margin : Option ℚ)
    (target_total_margin : ℚ) (base_quantity : ℤ) : ℤ :=
  round_to_lot_size
    (intended_proportional_qty base_total_margin target_total_margin base_quantity)
    exchange

/-- `base_sign` (line 341): `1 if base_quantity >= 0 else -1`. -/
def base_sign (base_quantity : ℤ) : ℤ := if 0 ≤ base_quantity then 1 else -1

/-- Decision logic of `mimic_position_in_account` (lines 310-412).
`kite` is the truthiness of `target_account['kite']`; `ltp` is the last
price after the quote fallback of lines 375-383. -/
def mimic_position_in_account (kite : Bool) (copy_trades symbol exchange0 : String)
    (base_quantity : ℤ) (base_total_margin : Option ℚ) (target_total_margin : ℚ)
    (current_qty : ℤ) (ltp : ℚ) : MimicResult :=
  if pyUpper (pyStrip copy_trades) ≠ "YES" then .skipped
  else if !kite then .skipped
  else
    let exchange := pyUpper exchange0
    if symbol = "" ∨ exchange = "" ∨ base_quantity = 0 then .skipped
    else
      let intended :=
        intended_qty exchange base_total_margin target_total_margin base_quantity
      if intended = 0 then .skipped
      else
        let intended_qty_signed := intended * base_sign base_quantity
        let delta_qty := intended_qty_signed - current_qty
        let lot_size := if exchange = "NFO" then NFO_LOT_SIZE else BFO_LOT_SIZE
        if |delta_qty| < lot_size then .noTrade
        else
          let dqr := round_to_lot_size (|delta_qty| : ℚ) exchange
          let delta_qty_rounded := if delta_qty < 0 then -dqr else dqr
          if delta_qty_rounded = 0 then .noTrade
          else if ltp ≤ 0 then .skipped
          else if 0 < delta_qty_rounded then .trade "BUY" |delta_qty_rounded|
          else .trade "SELL" |delta_qty_rounded|

/-- Decision logic of `close_position_in_account` (lines 117-183).  `kite`
is the truthiness of `target_account['kite']`; `ltp` is the position's
last price after the quote fallback of lines 146-154. -/
def close_position_in_account (kite : Bool) (symbol exchange0 : String)
    (current_qty : ℤ) (ltp : ℚ) : CloseResult :=
  if !kite then .failed
  else
    let exchange := pyUpper exchange0
    if symbol = "" ∨ exchange = "" ∨ current_qty = 0 then .failed
    else
      let transaction_type := if 0 < current_qty then "SELL" else "BUY"
      let order_qty : ℤ := |current_qty|
      let order_qty_rounded := round_to_lot_size (order_qty : ℚ) exchange
      if order_qty_rounded = 0 then .trivialSuccess
      else if ltp ≤ 0 then .failed
      else .order transaction_type order_qty_rounded

/-- Execution of `mimic_position_in_account` against a broker whose `i`-th
`place_order` call succeeds iff `ok i`: the `Bool` the Python function
returns.  A raised chunk exception is caught by the `try/except` of lines
390-412 and turns into `False`. -/
def mimic_execute (ok : ℕ → Bool) (kite : Bool)
    (copy_trades symbol exchange0 : String) (base_quantity : ℤ)
    (base_total_margin : Option ℚ) (target_total_margin : ℚ)
    (current_qty : ℤ) (ltp : ℚ) : Bool :=
  match mimic_position_in_account kite copy_trades symbol exchange0 base_quantity
      base_total_margin target_total_margin current_qty ltp with
  | .skipped => false
  | .noTrade => true
  | .trade _ order_qty =>
    let r := _place_market_order_recursive ok (_get_max_quantity (pyUpper exchange0))
      symbol (pyUpper exchange0) order_qty.toNat 1 order_qty
    match r.2 with
    | some _ => false
    | none => !r.1.isEmpty

/-- A broker position record (the fields of the `kite.positions()['net']`
dicts the engine reads). -/
structure Position where
  tradingsymbol : String
  exchange : String
  quantity : ℤ
  last_price : ℚ
deriving DecidableEq

/-- The open NFO/BFO filter of `get_base_account_positions` /
`get_target_account_open_positions` (lines 86-90, 106-110). -/
def is_open_nfo_bfo (p : Position) : Bool :=
  p.quantity != 0 && (pyUpper p.exchange == "NFO" || pyUpper p.exchange == "BFO")

/-- `get_target_account_open_positions` (lines 97-114) applied to the
account's raw `net` position list. -/
def get_target_account_open_positions (net_positions : List Position) : List Position :=
  net_positions.filter is_open_nfo_bfo

/-- The `f"{exchange}:{symbol}"` key (both parts upper-cased) used in
`run_sync_operations` (lines 636-639, 645-648). -/
def pos_key (p : Position) : String :=
  pyUpper p.exchange ++ ":" ++ pyUpper p.tradingsymbol

/-- `base_position_keys` (lines 634-639): keys of the base open positions
that have a nonempty symbol and exchange. -/
def base_position_keys (base_positions : List Position) : List String :=
  (base_positions.filter fun p =>
    pyUpper p.tradingsymbol != "" && pyUpper p.exchange != "").map pos_key

/-- `positions_to_close` (lines 641-651): target open positions with a
nonempty symbol and exchange that are stray — base has no open positions
at all, or the position's key is absent from the base keys. -/
def positions_to_close (base_positions target_open_positions : List Position) :
    List Position :=
  target_open_positions.filter fun p =>
    pyUpper p.tradingsymbol != "" && pyUpper p.exchange != "" &&
      (base_positions.isEmpty || !(base_position_keys base_positions).contains (pos_key p))

/-- One intended write to a target account in a sync cycle: closing a
stray position, or mirroring a base position. -/
inductive SyncAction
  | closeStray (p : Position)
  | mirror (p : Position)
deriving DecidableEq

/-- The per-target order of operations in `run_sync_operations` (lines
615-685): skip the target if its total margin is falsy or non-positive;
otherwise Step 1 closes every stray position, then Step 2 mirrors every
base position (only when base has positions and the base margin is truthy
and positive). -/
def run_sync_target_actions (base_positions : List Position)
    (base_total_margin target_total_margin : Option ℚ)
    (target_net_positions : List Position) : List SyncAction :=
  match target_total_margin with
  | none => []
  | some ttm =>
    if ttm ≤ 0 then []
    else
      let target_open := get_target_account_open_positions target_net_positions
      let to_close := positions_to_close base_positions target_open
      let step1 := to_close.map SyncAction.closeStray
      let step2 :=
        if !base_positions.isEmpty then
          match base_total_margin with
          | some btm =>
            if 0 < btm then base_positions.map SyncAction.mirror else []
          | none => []
        else []
      step1 ++ step2

/-- The `for base_pos in base_positions` loop of Step 2 (lines 670-679):
each base position is processed by one `mimic_position_in_account` call
whose result feeds `success_count`; the loop has no `break`. -/
def sync_mirror_pass (run_one : Position → Bool) (base_positions : List Position) :
    List Bool :=
  base_positions.map run_one

/-- An account descriptor as read by `run_sync_operations` (lines 589-595):
base flag, truthiness of the initialized `kite` handle, raw
`copy_trades` cell value. -/
structure Account where
  is_base_account : Bool
  has_kite : Bool
  copy_trades : String
deriving DecidableEq

/-- `target_accounts` (lines 589-595): non-base accounts with a live
session whose `copy_trades` normalizes to `"YES"`. -/
def target_accounts (accounts : List Account) : List Account :=
  accounts.filter fun a =>
    !a.is_base_account && a.has_kite && (pyUpper (pyStrip a.copy_trades) == "YES")

theorem pyUpper_nfo : pyUpper "NFO" = "NFO" := by decide

theorem pyUpper_bfo : pyUpper "BFO" = "BFO" := by decide

theorem NFO_LOT_SIZE_pos : 0 < NFO_LOT_SIZE := by decide

theorem BFO_LOT_SIZE_pos : 0 < BFO_LOT_SIZE := by decide

theorem lot_size_for_pos (exchange : String) : 0 < lot_size_for exchange := by
  unfold lot_size_for
  split <;> decide

theorem round_to_lot_size_with_eq_ceil (L : ℤ) (q : ℚ) (hq : 0 < q) (hL : 0 < L) :
    round_to_lot_size_with L q = ⌈q / (L : ℚ)⌉ * L := by
  unfold round_to_lot_size_with
  rw [if_neg (by omega), if_neg (by simp [not_le, hq])]

theorem round_to_lot_size_with_dvd (L : ℤ) (q : ℚ) :
    L ∣ round_to_lot_size_with L q := by
  unfold round_to_lot_size_with
  split
  · exact dvd_zero L
  · split
    · exact dvd_zero L
    · exact dvd_mul_left L _

theorem round_to_lot_size_with_ge (L : ℤ) (q : ℚ) (hq : 0 < q) (hL : 0 < L) :
    q ≤ (round_to_lot_size_with L q : ℚ) := by
  rw [round_to_lot_size_with_eq_ceil L q hq hL]
  have hL' : (0 : ℚ) < (L : ℚ) := by exact_mod_cast hL
  have h := Int.le_ceil (q / (L : ℚ))
  rw [div_le_iff₀ hL'] at h
  push_cast
  exact h

theorem round_to_lot_size_with_pos (L : ℤ) (q : ℚ) (hq : 0 < q) (hL : 0 < L) :
    0 < round_to_lot_size_with L q := by
  have hge := round_to_lot_size_with_ge L q hq hL
  have : (0 : ℚ) < (round_to_lot_size_with L q : ℚ) := lt_of_lt_of_le hq hge
  exact_mod_cast this

theorem round_to_lot_size_with_nonneg (L : ℤ) (q : ℚ) :
    0 ≤ round_to_lot_size_with L q := by
  unfold round_to_lot_size_with
  split
  · exact le_refl 0
  · split
    · exact le_refl 0
    · rename_i hLpos hqpos
      have hL : 0 < L := by omega
      have hq : 0 < q := lt_of_not_le hqpos
      have := round_to_lot_size_with_pos L q hq hL
      rw [round_to_lot_size_with_eq_ceil L q hq hL] at this
      exact le_of_lt this

theorem round_to_lot_size_pos (q : ℚ) (exchange : String) (hq : 0 < q) :
    0 < round_to_lot_size q exchange :=
  round_to_lot_size_with_pos _ q hq (lot_size_for_pos exchange)

theorem round_to_lot_size_nonneg (q : ℚ) (exchange : String) :
    0 ≤ round_to_lot_size q exchange :=
  round_to_lot_size_with_nonneg _ q

/-- C3: `round_to_lot_size` returns `ceil(q/L)*L` for positive quantity and
lot size, returns `0` when the quantity or the lot size is non-positive,
and for positive inputs the result is a multiple of the lot size and at
least the quantity; the exchange-keyed entry point is the same pure
function applied to the exchange's configured lot size. -/
theorem round_to_lot_size_correct (L : ℤ) (q : ℚ) :
    (0 < q → 0 < L →
      round_to_lot_size_with L q = ⌈q / (L : ℚ)⌉ * L
      ∧ L ∣ round_to_lot_size_with L q
      ∧ q ≤ (round_to_lot_size_with L q : ℚ))
    ∧ (q ≤ 0 ∨ L ≤ 0 → round_to_lot_size_with L q = 0)
    ∧ (∀ exchange : String,
        round_to_lot_size q exchange = round_to_lot_size_with (lot_size_for exchange) q) := by
  refine ⟨fun hq hL => ⟨round_to_lot_size_with_eq_ceil L q hq hL,
    round_to_lot_size_with_dvd L q, round_to_lot_size_with_ge L q hq hL⟩, ?_, fun _ => rfl⟩
  intro h
  unfold round_to_lot_size_with
  rcases h with h | h
  · by_cases hL : L ≤ 0
    · rw [if_pos hL]
    · rw [if_neg hL, if_pos h]
  · rw [if_pos h]

/-- Witness for C3 at `q = 130`, `L = 65` (NFO lot size). -/
theorem round_to_lot_size_correct_witness :
    (0 : ℚ) < 130 ∧ (0 : ℤ) < 65 ∧
      (round_to_lot_size_with 65 130 = ⌈(130 : ℚ) / (65 : ℚ)⌉ * 65
        ∧ (65 : ℤ) ∣ round_to_lot_size_with 65 130
        ∧ (130 : ℚ) ≤ (round_to_lot_size_with 65 130 : ℚ)) :=
  ⟨by norm_num, by norm_num,
    (round_to_lot_size_correct 65 130).1 (by norm_num) (by norm_num)⟩

theorem pmor_ok_spec (C : ℤ) (hC : 0 < C) (s e : String) (ok : ℕ → Bool)
    (hok : ∀ j, ok j = true) :
    ∀ (fuel : ℕ) (q : ℤ) (i : ℕ), 0 < q → q.toNat ≤ fuel →
      _place_market_order_recursive ok C s e fuel i q
        = (List.replicate ((q - 1) / C).toNat C ++ [q - C * ((q - 1) / C)], none) := by
  intro fuel
  induction fuel with
  | zero => intro q i hq hle; exfalso; omega
  | succ n ih =>
    intro q i hq hle
    simp only [_place_market_order_recursive]
    rw [if_neg (by omega)]
    by_cases hqc : q ≤ C
    · rw [if_pos hqc, hok i, if_pos rfl]
      have h1 : (q - 1) / C = 0 := Int.ediv_eq_zero_of_lt (by omega) (by omega)
      rw [h1]
      simp
    · rw [if_neg hqc, hok i, if_pos rfl]
      have hrec := ih (q - C) (i + 1) (by omega) (by omega)
      rw [hrec]
      have h2 : (q - 1) / C = (q - C - 1) / C + 1 := by
        have h := Int.add_mul_ediv_right (q - C - 1) 1 (by omega : C ≠ 0)
        have harg : q - C - 1 + 1 * C = q - 1 := by ring
        rw [harg] at h
        omega
      have h3 : ((q - C - 1) / C + 1).toNat = ((q - C - 1) / C).toNat + 1 := by
        have : 0 ≤ (q - C - 1) / C := Int.ediv_nonneg (by omega) (by omega)
        omega
      rw [h2, h3, List.replicate_succ]
      simp only [List.cons_append, Prod.mk.injEq, List.cons.injEq, true_and, and_true]
      have h4 : q - C - C * ((q - C - 1) / C) = q - C * ((q - C - 1) / C + 1) := by ring
      rw [h4]

theorem place_chunks_gen_eq (C Q : ℤ) (hC : 0 < C) (hQ : 0 < Q) :
    place_chunks_gen C Q
      = List.replicate ((Q - 1) / C).toNat C ++ [Q - C * ((Q - 1) / C)] := by
  unfold place_chunks_gen
  rw [pmor_ok_spec C hC "" "" _ (fun _ => rfl) Q.toNat Q 1 hQ (le_refl _)]

theorem chunks_last_eq (C Q : ℤ) (hC : 0 < C) (hQ : 0 < Q) :
    Q - C * ((Q - 1) / C) = if Q % C = 0 then C else Q % C := by
  have hdm := Int.ediv_add_emod (Q - 1) C
  have hm0 : 0 ≤ (Q - 1) % C := Int.emod_nonneg _ (ne_of_gt hC)
  have hm1 : (Q - 1) % C < C := Int.emod_lt_of_pos _ hC
  have hr : Q - C * ((Q - 1) / C) = (Q - 1) % C + 1 := by linarith
  have hdm' := Int.ediv_add_emod Q C
  have hm0' : 0 ≤ Q % C := Int.emod_nonneg _ (ne_of_gt hC)
  have hm1' : Q % C < C := Int.emod_lt_of_pos _ hC
  by_cases h0 : Q % C = 0
  · rw [if_pos h0, hr]
    have hq1 : Q - 1 = C - 1 + (Q / C - 1) * C := by linarith
    rw [hq1, Int.add_mul_emod_self]
    rw [Int.emod_eq_of_lt (by omega) (by omega)]
    ring
  · rw [if_neg h0, hr]
    have hq1 : Q - 1 = Q % C - 1 + Q / C * C := by linarith
    rw [hq1, Int.add_mul_emod_self]
    rw [Int.emod_eq_of_lt (by omega) (by omega)]
    ring

/-- C2: order split correctness.  For every positive requested quantity `Q`
and positive cap `C`, the recursive order placement emits `ceil((Q-1)/C)`
full-cap chunks followed by the remainder; the chunks sum to `Q`, each is
positive and at most `C`, their number is `ceil(Q/C) = (Q+C-1)/C`, and the
last chunk is the remainder (`Q mod C`, or `C` itself when `C` divides
`Q`). -/
theorem order_split_correct (C Q : ℤ) (hC : 0 < C) (hQ : 0 < Q) :
    place_chunks_gen C Q
      = List.replicate ((Q - 1) / C).toNat C ++ [Q - C * ((Q - 1) / C)]
    ∧ (place_chunks_gen C Q).sum = Q
    ∧ (∀ c ∈ place_chunks_gen C Q, 0 < c ∧ c ≤ C)
    ∧ ((place_chunks_gen C Q).length : ℤ) = (Q + C - 1) / C
    ∧ (place_chunks_gen C Q).getLast? = some (if Q % C = 0 then C else Q % C) := by
  have heq := place_chunks_gen_eq C Q hC hQ
  have hd0 : 0 ≤ (Q - 1) / C := Int.ediv_nonneg (by omega) (by omega)
  have hdm := Int.ediv_add_emod (Q - 1) C
  have hm0 : 0 ≤ (Q - 1) % C := Int.emod_nonneg _ (ne_of_gt hC)
  have hm1 : (Q - 1) % C < C := Int.emod_lt_of_pos _ hC
  have hlast0 : 0 < Q - C * ((Q - 1) / C) := by linarith
  have hlast1 : Q - C * ((Q - 1) / C) ≤ C := by linarith
  refine ⟨heq, ?_, ?_, ?_, ?_⟩
  · rw [heq]
    rw [List.sum_append, List.sum_replicate, List.sum_singleton, nsmul_eq_mul,
      Int.toNat_of_nonneg hd0]
    ring
  · intro c hc
    rw [heq, List.mem_append] at hc
    rcases hc with hc | hc
    · rw [List.eq_of_mem_replicate hc]
      exact ⟨hC, le_refl _⟩
    · rw [List.mem_singleton] at hc
      subst hc
      exact ⟨hlast0, hlast1⟩
  · rw [heq]
    rw [List.length_append, List.length_replicate, List.length_singleton]
    have h2 : (Q + C - 1) / C = (Q - 1) / C + 1 := by
      have h := Int.add_mul_ediv_right (Q - 1) 1 (by omega : C ≠ 0)
      have harg : Q - 1 + 1 * C = Q + C - 1 := by ring
      rw [harg] at h
      omega
    rw [h2]
    push_cast [Int.toNat_of_nonneg hd0]
    ring
  · rw [heq, List.getLast?_concat, chunks_last_eq C Q hC hQ]

/-- Witness for C2 at the spec's example: a requested quantity of 4000 with
cap 1755 splits into the chunks `[1755, 1755, 490]`. -/
theorem order_split_correct_witness :
    (0 : ℤ) < 1755 ∧ (0 : ℤ) < 4000 ∧
      (place_chunks_gen 1755 4000).sum = 4000 ∧
      place_chunks_gen 1755 4000 = [1755, 1755, 490] := by
  have h := order_split_correct 1755 4000 (by decide) (by decide)
  refine ⟨by decide, by decide, h.2.1, ?_⟩
  rw [h.1]
  decide

theorem inline_lot_pos (s : String) :
    0 < (if s = "NFO" then NFO_LOT_SIZE else BFO_LOT_SIZE) := by
  split <;> decide

theorem mimic_stage (copy_trades symbol exchange0 : String) (base_quantity : ℤ)
    (base_total_margin : Option ℚ) (target_total_margin : ℚ)
    (current_qty : ℤ) (ltp : ℚ)
    (hcopy : pyUpper (pyStrip copy_trades) = "YES")
    (hsym : symbol ≠ "") (hex : pyUpper exchange0 ≠ "") (hbq : base_quantity ≠ 0)
    (hconv : intended_qty (pyUpper exchange0) base_total_margin target_total_margin
      base_quantity ≠ 0) :
    mimic_position_in_account true copy_trades symbol exchange0 base_quantity
      base_total_margin target_total_margin current_qty ltp
    = (let exchange := pyUpper exchange0
       let delta_qty := intended_qty exchange base_total_margin target_total_margin
         base_quantity * base_sign base_quantity - current_qty
       let lot_size := if exchange = "NFO" then NFO_LOT_SIZE else BFO_LOT_SIZE
       if |delta_qty| < lot_size then .noTrade
       else
         let dqr := round_to_lot_size (|delta_qty| : ℚ) exchange
         let delta_qty_rounded := if delta_qty < 0 then -dqr else dqr
         if delta_qty_rounded = 0 then .noTrade
         else if ltp ≤ 0 then .skipped
         else if 0 < delta_qty_rounded then .trade "BUY" |delta_qty_rounded|
         else .trade "SELL" |delta_qty_rounded|) := by
  simp only [mimic_position_in_account]
  rw [if_neg (not_not_intro hcopy)]
  simp only [Bool.not_true]
  rw [if_neg (by simp)]
  rw [if_neg (by simp [hsym, hex, hbq])]
  rw [if_neg hconv]

/-- C1: idempotence of the mirror step.  With margins and positions
unchanged, once the target's current signed quantity equals the intended
signed quantity (a multiple of the lot size), `mimic_position_in_account`
computes `delta = 0`, which is below one lot, and returns success without
issuing any order. -/
theorem mimic_idempotent (copy_trades symbol exchange0 : String)
    (base_quantity : ℤ) (base_total_margin : Option ℚ)
    (target_total_margin ltp : ℚ)
    (hcopy : pyUpper (pyStrip copy_trades) = "YES")
    (hsym : symbol ≠ "") (hex : pyUpper exchange0 ≠ "") (hbq : base_quantity ≠ 0)
    (hconv : intended_qty (pyUpper exchange0) base_total_margin target_total_margin
      base_quantity ≠ 0) :
    intended_qty (pyUpper exchange0) base_total_margin target_total_margin base_quantity
        * base_sign base_quantity
      - intended_qty (pyUpper exchange0) base_total_margin target_total_margin base_quantity
        * base_sign base_quantity = 0
    ∧ lot_size_for (pyUpper exchange0)
        ∣ intended_qty (pyUpper exchange0) base_total_margin target_total_margin base_quantity
    ∧ mimic_position_in_account true copy_trades symbol exchange0 base_quantity
        base_total_margin target_total_margin
        (intended_qty (pyUpper exchange0) base_total_margin target_total_margin base_quantity
          * base_sign base_quantity) ltp
      = MimicResult.noTrade := by
  refine ⟨sub_self _, round_to_lot_size_with_dvd _ _, ?_⟩
  rw [mimic_stage copy_trades symbol exchange0 base_quantity base_total_margin
    target_total_margin _ ltp hcopy hsym hex hbq hconv]
  simp only [sub_self, abs_zero]
  rw [if_pos (inline_lot_pos _)]

theorem intended_qty_example :
    intended_qty (pyUpper "NFO") (some 100) 25 (-260) = 65 := by
  rw [pyUpper_nfo]
  unfold intended_qty intended_proportional_qty round_to_lot_size
    round_to_lot_size_with lot_size_for
  rw [pyUpper_nfo]
  norm_num [NFO_LOT_SIZE]

/-- Witness for C1: base short 260 on NFO, margins 100 vs 25 (intended
signed quantity `-65`), target already holding `-65`: no trade. -/
theorem mimic_idempotent_witness :
    pyUpper (pyStrip "YES") = "YES" ∧ "NIFTY24OCTFUT" ≠ "" ∧ pyUpper "NFO" ≠ ""
    ∧ ((-260 : ℤ) ≠ 0)
    ∧ intended_qty (pyUpper "NFO") (some 100) 25 (-260) ≠ 0
    ∧ mimic_position_in_account true "YES" "NIFTY24OCTFUT" "NFO" (-260) (some 100) 25
        (intended_qty (pyUpper "NFO") (some 100) 25 (-260) * base_sign (-260)) 1
      = MimicResult.noTrade := by
  have hconv : intended_qty (pyUpper "NFO") (some 100) 25 (-260) ≠ 0 := by
    rw [intended_qty_example]
    decide
  exact ⟨by decide, by decide, by decide, by decide, hconv,
    (mimic_idempotent "YES" "NIFTY24OCTFUT" "NFO" (-260) (some 100) 25 1
      (by decide) (by decide) (by decide) (by decide) hconv).2.2⟩

theorem round_to_lot_size_with_of_nonpos (L : ℤ) (q : ℚ) (h : q ≤ 0) :
    round_to_lot_size_with L q = 0 := by
  unfold round_to_lot_size_with
  by_cases hL : L ≤ 0
  · rw [if_pos hL]
  · rw [if_neg hL, if_pos h]

theorem intended_qty_nonneg (ex : String) (btm : Option ℚ) (ttm : ℚ) (bq : ℤ) :
    0 ≤ intended_qty ex btm ttm bq :=
  round_to_lot_size_nonneg _ _

theorem intended_qty_zero_of_nonpos (ex : String) (ttm : ℚ) (bq : ℤ)
    (btm : Option ℚ) (h : btm = none ∨ ∃ b, btm = some b ∧ b ≤ 0) :
    intended_qty ex btm ttm bq = 0 := by
  have hraw : intended_proportional_qty btm ttm bq = 0 := by
    rcases h with h | ⟨b, hb, hble⟩
    · subst h; rfl
    · subst hb
      simp [intended_proportional_qty, not_lt.mpr hble]
  unfold intended_qty
  rw [hraw]
  exact round_to_lot_size_with_of_nonpos _ _ le_rfl

/-- C4: proportional sizing and sign fidelity.  With a positive base
margin the intended quantity is the margin-ratio-scaled absolute base
quantity rounded up to a lot; whenever the intended quantity is nonzero
its signed version carries the sign of the base quantity; and with a
missing or non-positive base margin the intended raw quantity is zero, so
`mimic_position_in_account` skips the position without any order. -/
theorem proportional_sizing_sign_fidelity :
    (∀ (ex : String) (b ttm : ℚ) (bq : ℤ), 0 < b →
      intended_qty ex (some b) ttm bq = round_to_lot_size ((ttm / b) * |(bq : ℚ)|) ex)
    ∧ (∀ (ex : String) (btm : Option ℚ) (ttm : ℚ) (bq : ℤ), bq ≠ 0 →
        intended_qty ex btm ttm bq ≠ 0 →
        (intended_qty ex btm ttm bq * base_sign bq).sign = bq.sign)
    ∧ (∀ (kite : Bool) (copy_trades symbol exchange0 : String)
        (bq current_qty : ℤ) (btm : Option ℚ) (ttm ltp : ℚ),
        (btm = none ∨ ∃ b, btm = some b ∧ b ≤ 0) →
        mimic_position_in_account kite copy_trades symbol exchange0 bq btm ttm
          current_qty ltp = MimicResult.skipped) := by
  refine ⟨?_, ?_, ?_⟩
  · intro ex b ttm bq hb
    simp [intended_qty, intended_proportional_qty, hb]
  · intro ex btm ttm bq hbq hne
    have hI : 0 < intended_qty ex btm ttm bq :=
      lt_of_le_of_ne (intended_qty_nonneg ex btm ttm bq) (Ne.symm hne)
    unfold base_sign
    by_cases h : 0 ≤ bq
    · rw [if_pos h, mul_one, Int.sign_eq_one_iff_pos.mpr hI,
        Int.sign_eq_one_iff_pos.mpr (lt_of_le_of_ne h (Ne.symm hbq))]
    · rw [if_neg h]
      have hbq' : bq < 0 := lt_of_not_le h
      rw [mul_neg_one, Int.sign_neg, Int.sign_eq_one_iff_pos.mpr hI,
        Int.sign_eq_neg_one_iff_neg.mpr hbq']
  · intro kite copy_trades symbol exchange0 bq current_qty btm ttm ltp h
    have h0 := intended_qty_zero_of_nonpos (pyUpper exchange0) ttm bq btm h
    simp only [mimic_position_in_account, h0, eq_self_iff_true, if_true, ite_self]

/-- Witness for C4: base margin 100, target margin 25, base short 260 on
NFO gives intended quantity `round_up(65) = 65` with sign `-1`; a zero
base margin skips. -/
theorem proportional_sizing_sign_fidelity_witness :
    (0 : ℚ) < 100
    ∧ intended_qty "NFO" (some 100) 25 (-260)
        = round_to_lot_size ((25 / 100) * |((-260 : ℤ) : ℚ)|) "NFO"
    ∧ ((-260 : ℤ) ≠ 0)
    ∧ intended_qty (pyUpper "NFO") (some 100) 25 (-260) ≠ 0
    ∧ (intended_qty (pyUpper "NFO") (some 100) 25 (-260) * base_sign (-260)).sign
        = (-260 : ℤ).sign
    ∧ mimic_position_in_account true "YES" "NIFTY24OCTFUT" "NFO" (-260) (some 0) 25 0 1
        = MimicResult.skipped := by
  have hne : intended_qty (pyUpper "NFO") (some 100) 25 (-260) ≠ 0 := by
    rw [intended_qty_example]; decide
  exact ⟨by norm_num,
    proportional_sizing_sign_fidelity.1 "NFO" 100 25 (-260) (by norm_num),
    by decide, hne,
    proportional_sizing_sign_fidelity.2.1 (pyUpper "NFO") (some 100) 25 (-260)
      (by decide) hne,
    proportional_sizing_sign_fidelity.2.2 true "YES" "NIFTY24OCTFUT" "NFO" (-260) 0
      (some 0) 25 1 (Or.inr ⟨0, rfl, le_rfl⟩)⟩

/-- C5: delta-trade rule.  Writing `delta` for the intended signed
quantity minus the current signed quantity: if `|delta|` is below the
exchange's lot size no order is issued (success); otherwise, with a valid
price, exactly one trade is issued whose magnitude is `|delta|` rounded up
to the lot size (a positive quantity) and whose side is BUY for positive
delta and SELL for negative delta. -/
theorem delta_trade_rule (copy_trades symbol exchange0 : String)
    (base_quantity current_qty : ℤ) (base_total_margin : Option ℚ)
    (target_total_margin ltp : ℚ)
    (hcopy : pyUpper (pyStrip copy_trades) = "YES")
    (hsym : symbol ≠ "") (hex : pyUpper exchange0 ≠ "") (hbq : base_quantity ≠ 0)
    (hconv : intended_qty (pyUpper exchange0) base_total_margin target_total_margin
      base_quantity ≠ 0) :
    (|intended_qty (pyUpper exchange0) base_total_margin target_total_margin base_quantity
        * base_sign base_quantity - current_qty|
        < (if pyUpper exchange0 = "NFO" then NFO_LOT_SIZE else BFO_LOT_SIZE) →
      mimic_position_in_account true copy_trades symbol exchange0 base_quantity
        base_total_margin target_total_margin current_qty ltp = MimicResult.noTrade)
    ∧ ((if pyUpper exchange0 = "NFO" then NFO_LOT_SIZE else BFO_LOT_SIZE)
        ≤ |intended_qty (pyUpper exchange0) base_total_margin target_total_margin base_quantity
            * base_sign base_quantity - current_qty| → 0 < ltp →
      0 < round_to_lot_size
          ((|intended_qty (pyUpper exchange0) base_total_margin target_total_margin base_quantity
            * base_sign base_quantity - current_qty| : ℤ) : ℚ) (pyUpper exchange0)
      ∧ mimic_position_in_account true copy_trades symbol exchange0 base_quantity
          base_total_margin target_total_margin current_qty ltp
        = MimicResult.trade
            (if 0 < intended_qty (pyUpper exchange0) base_total_margin target_total_margin
                base_quantity * base_sign base_quantity - current_qty
              then "BUY" else "SELL")
            (round_to_lot_size
              ((|intended_qty (pyUpper exchange0) base_total_margin target_total_margin
                base_quantity * base_sign base_quantity - current_qty| : ℤ) : ℚ)
              (pyUpper exchange0))) := by
  have hstage := mimic_stage copy_trades symbol exchange0 base_quantity
    base_total_margin target_total_margin current_qty ltp hcopy hsym hex hbq hconv
  constructor
  · intro hlt
    rw [hstage]
    simp only []
    rw [if_pos hlt]
  · intro hge hltp
    have hlotpos := inline_lot_pos (pyUpper exchange0)
    have hD : intended_qty (pyUpper exchange0) base_total_margin target_total_margin
        base_quantity * base_sign base_quantity - current_qty ≠ 0 := by
      intro h0
      rw [h0] at hge
      simp only [abs_zero] at hge
      omega
    have habs : (0 : ℚ) < ((|intended_qty (pyUpper exchange0) base_total_margin
        target_total_margin base_quantity * base_sign base_quantity - current_qty| : ℤ) : ℚ) := by
      have : 0 < |intended_qty (pyUpper exchange0) base_total_margin target_total_margin
          base_quantity * base_sign base_quantity - current_qty| := abs_pos.mpr hD
      exact_mod_cast this
    have hroundpos := round_to_lot_size_pos _ (pyUpper exchange0) habs
    refine ⟨hroundpos, ?_⟩
    rw [hstage]
    simp only []
    rw [← Int.cast_abs]
    set D := intended_qty (pyUpper exchange0) base_total_margin target_total_margin
      base_quantity * base_sign base_quantity - current_qty with hDdef
    set R := round_to_lot_size ((|D| : ℤ) : ℚ) (pyUpper exchange0) with hRdef
    rw [if_neg (not_lt.mpr hge)]
    rcases lt_or_gt_of_ne hD with hneg | hpos
    · have h1 : ¬ (-R = 0) := by omega
      have h2 : ¬ (0 < -R) := by omega
      rw [if_pos hneg, if_neg h1, if_neg (not_le.mpr hltp), if_neg h2,
        if_neg (not_lt.mpr (le_of_lt hneg)), abs_neg, abs_of_pos hroundpos]
    · have h1 : ¬ (R = 0) := by omega
      rw [if_neg (not_lt.mpr (le_of_lt hpos)), if_neg h1,
        if_neg (not_le.mpr hltp), if_pos hroundpos, if_pos hpos, abs_of_pos hroundpos]

/-- Witness for C5: intended signed quantity `-65`, current 0, so
`delta = -65`, `|delta| = lot = 65`: exactly one SELL of 65. -/
theorem delta_trade_rule_witness :
    ((if pyUpper "NFO" = "NFO" then NFO_LOT_SIZE else BFO_LOT_SIZE)
        ≤ |intended_qty (pyUpper "NFO") (some 100) 25 (-260) * base_sign (-260) - 0|)
    ∧ (0 : ℚ) < 1
    ∧ (0 < round_to_lot_size
          ((|intended_qty (pyUpper "NFO") (some 100) 25 (-260) * base_sign (-260) - 0| : ℤ) : ℚ)
          (pyUpper "NFO")
      ∧ mimic_position_in_account true "YES" "NIFTY24OCTFUT" "NFO" (-260) (some 100) 25 0 1
        = MimicResult.trade
            (if 0 < intended_qty (pyUpper "NFO") (some 100) 25 (-260) * base_sign (-260) - 0
              then "BUY" else "SELL")
            (round_to_lot_size
              ((|intended_qty (pyUpper "NFO") (some 100) 25 (-260) * base_sign (-260) - 0| : ℤ) : ℚ)
              (pyUpper "NFO"))) := by
  have hge : (if pyUpper "NFO" = "NFO" then NFO_LOT_SIZE else BFO_LOT_SIZE)
      ≤ |intended_qty (pyUpper "NFO") (some 100) 25 (-260) * base_sign (-260) - 0| := by
    rw [intended_qty_example]
    decide
  exact ⟨hge, by norm_num,
    (delta_trade_rule "YES" "NIFTY24OCTFUT" "NFO" (-260) 0 (some 100) 25 1
      (by decide) (by decide) (by decide) (by decide)
      (by rw [intended_qty_example]; decide)).2 hge (by norm_num)⟩

/-- C10: closure magnitude bound.  For an open position (nonzero quantity)
the closing order magnitude `round_to_lot_size(abs(quantity))` is positive
(at least one lot), so the `order_qty_rounded == 0` early return of
`close_position_in_account` is unreachable; the magnitude is at least
`abs(quantity)`, and strictly greater exactly when `abs(quantity)` is not
a lot multiple, in which case the close trades past flat into the
opposite direction. -/
theorem close_position_magnitude (symbol exchange0 : String) (current_qty : ℤ)
    (hq : current_qty ≠ 0) (hsym : symbol ≠ "") (hex : pyUpper exchange0 ≠ "") :
    0 < round_to_lot_size ((|current_qty| : ℤ) : ℚ) (pyUpper exchange0)
    ∧ (∀ ltp : ℚ, close_position_in_account true symbol exchange0 current_qty ltp
        ≠ CloseResult.trivialSuccess)
    ∧ |current_qty| ≤ round_to_lot_size ((|current_qty| : ℤ) : ℚ) (pyUpper exchange0)
    ∧ (¬ lot_size_for (pyUpper exchange0) ∣ |current_qty| →
        |current_qty| < round_to_lot_size ((|current_qty| : ℤ) : ℚ) (pyUpper exchange0)
        ∧ (0 < current_qty →
            current_qty - round_to_lot_size ((|current_qty| : ℤ) : ℚ) (pyUpper exchange0) < 0)
        ∧ (current_qty < 0 →
            0 < current_qty + round_to_lot_size ((|current_qty| : ℤ) : ℚ) (pyUpper exchange0)))
    ∧ (∀ ltp : ℚ, 0 < ltp →
        close_position_in_account true symbol exchange0 current_qty ltp
          = CloseResult.order (if 0 < current_qty then "SELL" else "BUY")
              (round_to_lot_size ((|current_qty| : ℤ) : ℚ) (pyUpper exchange0))) := by
  have habs : (0 : ℚ) < ((|current_qty| : ℤ) : ℚ) := by
    have : 0 < |current_qty| := abs_pos.mpr hq
    exact_mod_cast this
  have hpos := round_to_lot_size_pos ((|current_qty| : ℤ) : ℚ) (pyUpper exchange0) habs
  have hge : |current_qty|
      ≤ round_to_lot_size ((|current_qty| : ℤ) : ℚ) (pyUpper exchange0) := by
    have h := round_to_lot_size_with_ge (lot_size_for (pyUpper exchange0))
      ((|current_qty| : ℤ) : ℚ) habs (lot_size_for_pos (pyUpper exchange0))
    exact_mod_cast h
  have hdvd := round_to_lot_size_with_dvd (lot_size_for (pyUpper exchange0))
    ((|current_qty| : ℤ) : ℚ)
  refine ⟨hpos, ?_, hge, ?_, ?_⟩
  · intro ltp
    simp only [close_position_in_account, Bool.not_true]
    rw [if_neg (by decide), if_neg (by simp [hsym, hex, hq]), if_neg (ne_of_gt hpos)]
    split <;> simp
  · intro hnd
    have hlt : |current_qty|
        < round_to_lot_size ((|current_qty| : ℤ) : ℚ) (pyUpper exchange0) := by
      rcases lt_or_eq_of_le hge with h | h
      · exact h
      · exact absurd (h ▸ hdvd) hnd
    refine ⟨hlt, ?_, ?_⟩
    · intro hqpos
      have : |current_qty| = current_qty := abs_of_pos hqpos
      omega
    · intro hqneg
      have : |current_qty| = -current_qty := abs_of_neg hqneg
      omega
  · intro ltp hltp
    simp only [close_position_in_account, Bool.not_true]
    rw [if_neg (by decide), if_neg (by simp [hsym, hex, hq]), if_neg (ne_of_gt hpos),
      if_neg (not_le.mpr hltp)]

/-- Witness for C10 at a short 50 on NFO (50 is not a multiple of the
65 lot). -/
theorem close_position_magnitude_witness :
    ((-50 : ℤ) ≠ 0) ∧ "NIFTY24OCTFUT" ≠ "" ∧ pyUpper "NFO" ≠ ""
    ∧ (0 < round_to_lot_size ((|(-50 : ℤ)| : ℤ) : ℚ) (pyUpper "NFO")
      ∧ (∀ ltp : ℚ, close_position_in_account true "NIFTY24OCTFUT" "NFO" (-50) ltp
          ≠ CloseResult.trivialSuccess)
      ∧ |(-50 : ℤ)| ≤ round_to_lot_size ((|(-50 : ℤ)| : ℤ) : ℚ) (pyUpper "NFO")
      ∧ (¬ lot_size_for (pyUpper "NFO") ∣ |(-50 : ℤ)| →
          |(-50 : ℤ)| < round_to_lot_size ((|(-50 : ℤ)| : ℤ) : ℚ) (pyUpper "NFO")
          ∧ (0 < (-50 : ℤ) →
              (-50 : ℤ) - round_to_lot_size ((|(-50 : ℤ)| : ℤ) : ℚ) (pyUpper "NFO") < 0)
          ∧ ((-50 : ℤ) < 0 →
              0 < (-50 : ℤ) + round_to_lot_size ((|(-50 : ℤ)| : ℤ) : ℚ) (pyUpper "NFO")))
      ∧ (∀ ltp : ℚ, 0 < ltp →
          close_position_in_account true "NIFTY24OCTFUT" "NFO" (-50) ltp
            = CloseResult.order (if 0 < (-50 : ℤ) then "SELL" else "BUY")
                (round_to_lot_size ((|(-50 : ℤ)| : ℤ) : ℚ) (pyUpper "NFO")))) :=
  ⟨by decide, by decide, by decide,
    close_position_magnitude "NIFTY24OCTFUT" "NFO" (-50) (by decide) (by decide) (by decide)⟩

/-- C6: stray-closure completeness and ordering.  For a target with a
positive total margin, the positions selected for closure are exactly its
open NFO/BFO positions whose `(exchange, symbol)` key is absent from the
base account's open-position keys — all of them when the base has no open
positions — and the per-target action sequence is the whole closure pass
followed by the mirror pass over exactly the base positions. -/
theorem stray_closure_complete (base_positions target_net_positions : List Position)
    (base_total_margin : Option ℚ) (ttm : ℚ) (httm : 0 < ttm)
    (hwf : ∀ p ∈ get_target_account_open_positions target_net_positions,
      pyUpper p.tradingsymbol ≠ "" ∧ pyUpper p.exchange ≠ "") :
    (∀ p, p ∈ positions_to_close base_positions
        (get_target_account_open_positions target_net_positions)
      ↔ p ∈ get_target_account_open_positions target_net_positions
        ∧ (base_positions = []
            ∨ pos_key p ∉ base_position_keys base_positions))
    ∧ (base_positions = [] →
        positions_to_close base_positions
          (get_target_account_open_positions target_net_positions)
        = get_target_account_open_positions target_net_positions)
    ∧ run_sync_target_actions base_positions base_total_margin (some ttm)
        target_net_positions
      = (positions_to_close base_positions
          (get_target_account_open_positions target_net_positions)).map
            SyncAction.closeStray
        ++ (if !base_positions.isEmpty then
              match base_total_margin with
              | some btm => if 0 < btm then base_positions.map SyncAction.mirror else []
              | none => []
            else []) := by
  refine ⟨?_, ?_, ?_⟩
  · intro p
    unfold positions_to_close
    rw [List.mem_filter]
    constructor
    · rintro ⟨hmem, hpred⟩
      refine ⟨hmem, ?_⟩
      simp at hpred
      tauto
    · rintro ⟨hmem, hstray⟩
      refine ⟨hmem, ?_⟩
      rcases hwf p hmem with ⟨h1, h2⟩
      simp
      tauto
  · intro hempty
    subst hempty
    unfold positions_to_close
    apply List.filter_eq_self.mpr
    intro p hmem
    rcases hwf p hmem with ⟨h1, h2⟩
    simp [h1, h2]
  · simp only [run_sync_target_actions]
    rw [if_neg (not_le.mpr httm)]

/-- Witness for C6: base open set `{A}`, target open set `{A, B, C}`:
closure acts exactly on `{B, C}`, then mirroring acts exactly on `{A}`. -/
theorem stray_closure_complete_witness :
    (0 : ℚ) < 1
    ∧ (∀ p ∈ get_target_account_open_positions
          [⟨"AAA", "NFO", 10, 0⟩, ⟨"BBB", "NFO", -5, 0⟩, ⟨"CCC", "BFO", 7, 0⟩],
        pyUpper p.tradingsymbol ≠ "" ∧ pyUpper p.exchange ≠ "")
    ∧ run_sync_target_actions [⟨"AAA", "NFO", 10, 0⟩] (some 2) (some 1)
        [⟨"AAA", "NFO", 10, 0⟩, ⟨"BBB", "NFO", -5, 0⟩, ⟨"CCC", "BFO", 7, 0⟩]
      = [SyncAction.closeStray ⟨"BBB", "NFO", -5, 0⟩,
          SyncAction.closeStray ⟨"CCC", "BFO", 7, 0⟩,
          SyncAction.mirror ⟨"AAA", "NFO", 10, 0⟩] := by
  have h := stray_closure_complete [⟨"AAA", "NFO", 10, 0⟩]
    [⟨"AAA", "NFO", 10, 0⟩, ⟨"BBB", "NFO", -5, 0⟩, ⟨"CCC", "BFO", 7, 0⟩]
    (some 2) 1 (by norm_num) (by decide)
  refine ⟨by norm_num, by decide, ?_⟩
  rw [h.2.2]
  norm_num
  decide

theorem _get_max_quantity_pos (exchange : String) : 0 < _get_max_quantity exchange := by
  unfold _get_max_quantity
  split <;> decide

theorem lot_size_for_dvd_max (exchange : String) :
    lot_size_for exchange ∣ _get_max_quantity exchange := by
  unfold lot_size_for _get_max_quantity
  by_cases h : pyUpper exchange = "NFO" <;> simp [h] <;> decide

theorem close_example :
    close_position_in_account true "NIFTY24OCTFUT" "NFO" 130 1
      = CloseResult.order "SELL" (round_to_lot_size ((|(130 : ℤ)| : ℤ) : ℚ) (pyUpper "NFO")) := by
  have hpos : 0 < round_to_lot_size ((|(130 : ℤ)| : ℤ) : ℚ) (pyUpper "NFO") := by
    apply round_to_lot_size_pos
    norm_num
  simp only [close_position_in_account, Bool.not_true]
  rw [if_neg (by decide), if_neg (by decide), if_neg (ne_of_gt hpos),
    if_neg (by norm_num : ¬ (1 : ℚ) ≤ 0), if_pos (by decide : (0 : ℤ) < 130)]

theorem mimic_example_trade :
    mimic_position_in_account true "YES" "NIFTY24OCTFUT" "NFO" (-260) (some 100) 25 0 1
      = MimicResult.trade "SELL"
          (round_to_lot_size ((|intended_qty (pyUpper "NFO") (some 100) 25 (-260)
              * base_sign (-260) - 0| : ℤ) : ℚ) (pyUpper "NFO")) := by
  have hconv : intended_qty (pyUpper "NFO") (some 100) 25 (-260) ≠ 0 := by
    rw [intended_qty_example]
    decide
  rw [mimic_stage "YES" "NIFTY24OCTFUT" "NFO" (-260) (some 100) 25 0 1
    (by decide) (by decide) (by decide) (by decide) hconv]
  simp only []
  rw [← Int.cast_abs]
  set D := intended_qty (pyUpper "NFO") (some 100) 25 (-260) * base_sign (-260) - 0
    with hDdef
  have hDval : D = -65 := by
    rw [hDdef, intended_qty_example]
    decide
  set R := round_to_lot_size ((|D| : ℤ) : ℚ) (pyUpper "NFO") with hRdef
  have hRpos : 0 < R := by
    rw [hRdef]
    apply round_to_lot_size_pos
    have : 0 < |D| := by rw [hDval]; decide
    exact_mod_cast this
  have hlt : ¬ |D| < (if pyUpper "NFO" = "NFO" then NFO_LOT_SIZE else BFO_LOT_SIZE) := by
    rw [hDval]
    decide
  rw [if_neg hlt, if_pos (show D < 0 by rw [hDval]; decide),
    if_neg (show ¬ -R = 0 by omega), if_neg (by norm_num : ¬ (1 : ℚ) ≤ 0),
    if_neg (show ¬ 0 < -R by omega), abs_neg, abs_of_pos hRpos]

set_option maxHeartbeats 1000000 in
/-- C7: lot-multiple invariant.  Lot rounding always yields a multiple of
the exchange lot size; the per-exchange caps are positive lot multiples;
splitting a positive lot-multiple order emits only positive lot-multiple
chunks bounded by the cap; and every order magnitude a close or mirror
decision submits is a positive multiple of the exchange's lot size. -/
theorem lot_multiple_invariant :
    (∀ (q : ℚ) (exchange : String), lot_size_for exchange ∣ round_to_lot_size q exchange)
    ∧ (∀ exchange : String,
        0 < _get_max_quantity exchange ∧ lot_size_for exchange ∣ _get_max_quantity exchange)
    ∧ (∀ (exchange : String) (Q : ℤ), 0 < Q → lot_size_for exchange ∣ Q →
        ∀ c ∈ _place_market_order_chunks exchange Q,
          0 < c ∧ c ≤ _get_max_quantity exchange ∧ lot_size_for exchange ∣ c)
    ∧ (∀ (kite : Bool) (symbol exchange0 : String) (current_qty : ℤ) (ltp : ℚ)
        (t : String) (oq : ℤ),
        close_position_in_account kite symbol exchange0 current_qty ltp
          = CloseResult.order t oq →
        0 < oq ∧ lot_size_for (pyUpper exchange0) ∣ oq)
    ∧ (∀ (kite : Bool) (copy_trades symbol exchange0 : String)
        (base_quantity current_qty : ℤ) (btm : Option ℚ) (ttm ltp : ℚ)
        (t : String) (oq : ℤ),
        mimic_position_in_account kite copy_trades symbol exchange0 base_quantity
          btm ttm current_qty ltp = MimicResult.trade t oq →
        0 < oq ∧ lot_size_for (pyUpper exchange0) ∣ oq) := by
  refine ⟨fun q exchange => round_to_lot_size_with_dvd _ q,
    fun exchange => ⟨_get_max_quantity_pos exchange, lot_size_for_dvd_max exchange⟩,
    ?_, ?_, ?_⟩
  · intro exchange Q hQ hdvdQ c hc
    have hC := _get_max_quantity_pos exchange
    have hLC := lot_size_for_dvd_max exchange
    unfold _place_market_order_chunks at hc
    rw [place_chunks_gen_eq _ Q hC hQ] at hc
    have hdm := Int.ediv_add_emod (Q - 1) (_get_max_quantity exchange)
    have hm0 : 0 ≤ (Q - 1) % _get_max_quantity exchange :=
      Int.emod_nonneg _ (ne_of_gt hC)
    have hm1 : (Q - 1) % _get_max_quantity exchange < _get_max_quantity exchange :=
      Int.emod_lt_of_pos _ hC
    rcases List.mem_append.mp hc with hc | hc
    · rw [List.eq_of_mem_replicate hc]
      exact ⟨hC, le_refl _, hLC⟩
    · rw [List.mem_singleton] at hc
      subst hc
      exact ⟨by linarith, by linarith, dvd_sub hdvdQ (hLC.mul_right _)⟩
  · intro kite symbol exchange0 current_qty ltp t oq h
    simp only [close_position_in_account, Bool.not_true] at h
    split at h
    · simp at h
    · split at h
      · simp at h
      · split at h
        · simp at h
        · split at h
          · simp at h
          · rename_i hne
            injection h with h1 h2
            subst h2
            refine ⟨?_, round_to_lot_size_with_dvd _ _⟩
            have := round_to_lot_size_nonneg
              ((|current_qty| : ℤ) : ℚ) (pyUpper exchange0)
            omega
  · intro kite copy_trades symbol exchange0 base_quantity current_qty btm ttm ltp t oq h
    simp only [mimic_position_in_account] at h
    repeat' split at h
    all_goals
      first
        | exact MimicResult.noConfusion h
        | (injection h with h1 h2
           subst h2
           refine ⟨abs_pos.mpr (by assumption), (dvd_abs _ _).mpr ?_⟩
           first
             | exact (dvd_neg).mpr (round_to_lot_size_with_dvd _ _)
             | exact round_to_lot_size_with_dvd _ _)

/-- Witness for C7: NFO defaults (lot 65, cap 1755); a 3575-quantity order
(55 lots) splits into cap chunks; the example close (qty 130) and mirror
trade (delta -65) magnitudes are positive lot multiples. -/
theorem lot_multiple_invariant_witness :
    (lot_size_for "NFO" ∣ round_to_lot_size 1 "NFO")
    ∧ ((0 : ℤ) < 3575 ∧ lot_size_for "NFO" ∣ (3575 : ℤ)
        ∧ (0 < (1755 : ℤ) ∧ (1755 : ℤ) ≤ _get_max_quantity "NFO"
            ∧ lot_size_for "NFO" ∣ (1755 : ℤ)))
    ∧ (0 < round_to_lot_size ((|(130 : ℤ)| : ℤ) : ℚ) (pyUpper "NFO")
        ∧ lot_size_for (pyUpper "NFO")
            ∣ round_to_lot_size ((|(130 : ℤ)| : ℤ) : ℚ) (pyUpper "NFO"))
    ∧ (0 < round_to_lot_size ((|intended_qty (pyUpper "NFO") (some 100) 25 (-260)
            * base_sign (-260) - 0| : ℤ) : ℚ) (pyUpper "NFO")
        ∧ lot_size_for (pyUpper "NFO")
            ∣ round_to_lot_size ((|intended_qty (pyUpper "NFO") (some 100) 25 (-260)
                * base_sign (-260) - 0| : ℤ) : ℚ) (pyUpper "NFO")) := by
  have hmem : (1755 : ℤ) ∈ _place_market_order_chunks "NFO" 3575 := by
    unfold _place_market_order_chunks
    rw [place_chunks_gen_eq _ 3575 (_get_max_quantity_pos "NFO") (by decide)]
    decide
  refine ⟨lot_multiple_invariant.1 1 "NFO", ⟨by decide, by decide, ?_⟩, ?_, ?_⟩
  · exact lot_multiple_invariant.2.2.1 "NFO" 3575 (by decide) (by decide) 1755 hmem
  · exact lot_multiple_invariant.2.2.2.1 true "NIFTY24OCTFUT" "NFO" 130 1 "SELL" _
      close_example
  · exact lot_multiple_invariant.2.2.2.2 true "YES" "NIFTY24OCTFUT" "NFO" (-260) 0
      (some 100) 25 1 "SELL" _ mimic_example_trade

/-- C8: copy-enabled write gate.  Every account selected as a sync target
is a non-base account with a live session whose `copy_trades` value
normalizes to `"YES"`, and `mimic_position_in_account` independently
refuses to trade (returns the skipped/no-order result) whenever the flag
does not normalize to `"YES"`. -/
theorem copy_enabled_gate :
    (∀ (accounts : List Account) (a : Account), a ∈ target_accounts accounts →
      a.is_base_account = false ∧ a.has_kite = true
        ∧ pyUpper (pyStrip a.copy_trades) = "YES")
    ∧ (∀ (kite : Bool) (copy_trades symbol exchange0 : String)
        (base_quantity current_qty : ℤ) (btm : Option ℚ) (ttm ltp : ℚ),
        pyUpper (pyStrip copy_trades) ≠ "YES" →
        mimic_position_in_account kite copy_trades symbol exchange0 base_quantity
          btm ttm current_qty ltp = MimicResult.skipped) := by
  constructor
  · intro accounts a ha
    unfold target_accounts at ha
    rw [List.mem_filter] at ha
    rcases ha with ⟨_, hpred⟩
    simp only [Bool.and_eq_true, Bool.not_eq_true', beq_iff_eq] at hpred
    exact ⟨hpred.1.1, hpred.1.2, hpred.2⟩
  · intro kite copy_trades symbol exchange0 base_quantity current_qty btm ttm ltp h
    simp only [mimic_position_in_account]
    rw [if_pos h]

/-- Witness for C8: an account list with one enabled (`" yes "`) and one
disabled (`"NO"`) account; the disabled flag also makes the mirror step
refuse to trade. -/
theorem copy_enabled_gate_witness :
    (⟨false, true, " yes "⟩ : Account)
        ∈ target_accounts [⟨false, true, " yes "⟩, ⟨false, true, "NO"⟩]
    ∧ ((⟨false, true, " yes "⟩ : Account).is_base_account = false
        ∧ (⟨false, true, " yes "⟩ : Account).has_kite = true
        ∧ pyUpper (pyStrip (⟨false, true, " yes "⟩ : Account).copy_trades) = "YES")
    ∧ pyUpper (pyStrip "NO") ≠ "YES"
    ∧ mimic_position_in_account true "NO" "NIFTY24OCTFUT" "NFO" (-260) (some 100) 25 0 1
        = MimicResult.skipped := by
  have hmem : (⟨false, true, " yes "⟩ : Account)
      ∈ target_accounts [⟨false, true, " yes "⟩, ⟨false, true, "NO"⟩] := by decide
  exact ⟨hmem, copy_enabled_gate.1 _ _ hmem, by decide,
    copy_enabled_gate.2 true "NO" "NIFTY24OCTFUT" "NFO" (-260) 0 (some 100) 25 1
      (by decide)⟩

theorem ediv_shift (C q : ℤ) (hC : C ≠ 0) : (q - 1) / C = (q - C - 1) / C + 1 := by
  have h := Int.add_mul_ediv_right (q - C - 1) 1 hC
  have harg : q - C - 1 + 1 * C = q - 1 := by ring
  rw [harg] at h
  omega

theorem place_chunks_gen_singleton (C q : ℤ) (hC : 0 < C) (hq : 0 < q) (hqc : q ≤ C) :
    place_chunks_gen C q = [q] := by
  rw [place_chunks_gen_eq C q hC hq]
  have h1 : (q - 1) / C = 0 := Int.ediv_eq_zero_of_lt (by omega) (by omega)
  rw [h1]
  simp

theorem place_chunks_gen_cons (C q : ℤ) (hC : 0 < C) (hq : C < q) :
    place_chunks_gen C q = C :: place_chunks_gen C (q - C) := by
  rw [place_chunks_gen_eq C q hC (by omega), place_chunks_gen_eq C (q - C) hC (by omega)]
  have h2 := ediv_shift C q (by omega)
  have hd0 : 0 ≤ (q - C - 1) / C := Int.ediv_nonneg (by omega) (by omega)
  have h3 : ((q - C - 1) / C + 1).toNat = ((q - C - 1) / C).toNat + 1 := by omega
  rw [h2, h3, List.replicate_succ]
  simp only [List.cons_append, List.cons.injEq, true_and]
  have h4 : q - C * ((q - C - 1) / C + 1) = q - C - C * ((q - C - 1) / C) := by ring
  rw [h4]

theorem place_chunks_gen_length_pos (C q : ℤ) (hC : 0 < C) (hq : 0 < q) :
    0 < (place_chunks_gen C q).length := by
  rw [place_chunks_gen_eq C q hC hq]
  simp

theorem pmor_fail_spec (C : ℤ) (hC : 0 < C) (s e : String) (ok : ℕ → Bool) :
    ∀ (fuel : ℕ) (q : ℤ) (i k : ℕ), 0 < q → q.toNat ≤ fuel →
      (∀ j : ℕ, j < k → ok (i + j) = true) → ok (i + k) = false →
      k < (place_chunks_gen C q).length →
      _place_market_order_recursive ok C s e fuel i q
        = ((place_chunks_gen C q).take (k + 1),
            some ⟨s, e, if k + 1 = (place_chunks_gen C q).length then none else some C⟩) := by
  intro fuel
  induction fuel with
  | zero => intro q i k hq hle _ _ _; exfalso; omega
  | succ n ih =>
    intro q i k hq hle hok hfail hk
    simp only [_place_market_order_recursive]
    rw [if_neg (by omega)]
    by_cases hqc : q ≤ C
    · rw [if_pos hqc]
      have hsing := place_chunks_gen_singleton C q hC hq hqc
      rw [hsing] at hk
      simp only [List.length_singleton] at hk
      have hk0 : k = 0 := by omega
      subst hk0
      rw [Nat.add_zero] at hfail
      rw [hfail]
      rw [hsing]
      simp
    · rw [if_neg hqc]
      have hcons := place_chunks_gen_cons C q hC (lt_of_not_le hqc)
      cases k with
      | zero =>
        rw [Nat.add_zero] at hfail
        rw [hfail]
        simp only [Bool.false_eq_true, if_false]
        rw [hcons]
        have hlen := place_chunks_gen_length_pos C (q - C) hC (by omega)
        rw [List.take_succ_cons, List.take_zero]
        rw [if_neg (show ¬ 0 + 1 = (C :: place_chunks_gen C (q - C)).length by
          simp only [List.length_cons]; omega)]
      | succ k' =>
        have hoki : ok i = true := by
          have := hok 0 (Nat.succ_pos k')
          simpa using this
        rw [hoki]
        simp only [if_true]
        have ihapp := ih (q - C) (i + 1) k' (by omega) (by omega)
          (fun j hj => by
            have := hok (j + 1) (by omega)
            rwa [show i + (j + 1) = i + 1 + j by omega] at this)
          (by rwa [show i + 1 + k' = i + (k' + 1) by omega])
          (by
            rw [hcons] at hk
            simpa using Nat.lt_of_succ_lt_succ hk)
        rw [ihapp, hcons]
        rw [List.take_succ_cons]
        by_cases hlen : k' + 1 = (place_chunks_gen C (q - C)).length
        · rw [if_pos hlen,
            if_pos (show k' + 1 + 1 = (C :: place_chunks_gen C (q - C)).length by
              simp only [List.length_cons]; omega)]
        · rw [if_neg hlen,
            if_neg (show ¬ k' + 1 + 1 = (C :: place_chunks_gen C (q - C)).length by
              simp only [List.length_cons]; omega)]

theorem round_example :
    round_to_lot_size ((|intended_qty (pyUpper "NFO") (some 100) 25 (-260)
        * base_sign (-260) - 0| : ℤ) : ℚ) (pyUpper "NFO") = 65 := by
  rw [intended_qty_example]
  norm_num [base_sign]
  rw [pyUpper_nfo]
  unfold round_to_lot_size round_to_lot_size_with lot_size_for
  rw [pyUpper_nfo]
  norm_num [NFO_LOT_SIZE]

/-- C9: failure isolation without retry.  When the broker rejects
slice `k` of a split trade, the submissions attempted are exactly the
first `k+1` planned chunks (each at most once, no retry) and the raised
error names the symbol and exchange (with the cap quantity on a split
slice); the surrounding `mimic_position_in_account` execution then
returns failure for that symbol only; and the Step-2 mirror loop always
processes every base position, one `mimic` call each, regardless of
per-symbol outcomes. -/
theorem trade_failure_isolation :
    (∀ (C Q : ℤ) (s e : String) (ok : ℕ → Bool) (k : ℕ),
      0 < C → 0 < Q →
      (∀ j : ℕ, j < k → ok (1 + j) = true) → ok (1 + k) = false →
      k < (place_chunks_gen C Q).length →
      _place_market_order_recursive ok C s e Q.toNat 1 Q
        = ((place_chunks_gen C Q).take (k + 1),
            some ⟨s, e, if k + 1 = (place_chunks_gen C Q).length then none else some C⟩))
    ∧ (∀ (ok : ℕ → Bool) (kite : Bool) (copy_trades symbol exchange0 : String)
        (base_quantity current_qty : ℤ) (btm : Option ℚ) (ttm ltp : ℚ)
        (t : String) (oq : ℤ) (err : OrderError),
        mimic_position_in_account kite copy_trades symbol exchange0 base_quantity
          btm ttm current_qty ltp = MimicResult.trade t oq →
        (_place_market_order_recursive ok (_get_max_quantity (pyUpper exchange0))
          symbol (pyUpper exchange0) oq.toNat 1 oq).2 = some err →
        mimic_execute ok kite copy_trades symbol exchange0 base_quantity
          btm ttm current_qty ltp = false)
    ∧ (∀ (run_one : Position → Bool) (base_positions : List Position),
        sync_mirror_pass run_one base_positions = base_positions.map run_one
        ∧ (sync_mirror_pass run_one base_positions).length = base_positions.length) := by
  refine ⟨?_, ?_, ?_⟩
  · intro C Q s e ok k hC hQ hok hfail hk
    exact pmor_fail_spec C hC s e ok Q.toNat Q 1 k hQ (le_refl _) hok hfail hk
  · intro ok kite copy_trades symbol exchange0 base_quantity current_qty btm ttm ltp
      t oq err hdec hfail
    unfold mimic_execute
    rw [hdec]
    simp only []
    rw [hfail]
  · intro run_one base_positions
    exact ⟨rfl, by simp [sync_mirror_pass]⟩

/-- Witness for C9: a 4000-quantity NFO trade whose second slice is
rejected attempts exactly `[1755, 1755]`; the example mirror trade fails
when its submission fails; a two-position mirror pass yields one result
per position. -/
theorem trade_failure_isolation_witness :
    ((0 : ℤ) < 1755 ∧ (0 : ℤ) < 4000
      ∧ (∀ j : ℕ, j < 1 → (fun i : ℕ => i != 2) (1 + j) = true)
      ∧ (fun i : ℕ => i != 2) (1 + 1) = false
      ∧ 1 < (place_chunks_gen 1755 4000).length
      ∧ _place_market_order_recursive (fun i : ℕ => i != 2) 1755 "NIFTY24OCTFUT" "NFO"
          (4000 : ℤ).toNat 1 4000
        = ((place_chunks_gen 1755 4000).take 2,
            some ⟨"NIFTY24OCTFUT", "NFO",
              if 1 + 1 = (place_chunks_gen 1755 4000).length then none else some 1755⟩))
    ∧ mimic_execute (fun _ => false) true "YES" "NIFTY24OCTFUT" "NFO" (-260)
        (some 100) 25 0 1 = false
    ∧ (sync_mirror_pass (fun _ => false)
          [⟨"AAA", "NFO", 10, 0⟩, ⟨"BBB", "NFO", -5, 0⟩]).length
        = ([⟨"AAA", "NFO", 10, 0⟩, ⟨"BBB", "NFO", -5, 0⟩] : List Position).length := by
  have hdec := mimic_example_trade
  rw [round_example] at hdec
  have hfail : (_place_market_order_recursive (fun _ => false)
      (_get_max_quantity (pyUpper "NFO")) "NIFTY24OCTFUT" (pyUpper "NFO")
      (65 : ℤ).toNat 1 65).2 = some ⟨"NIFTY24OCTFUT", pyUpper "NFO", none⟩ := by decide
  refine ⟨⟨by decide, by decide, by decide, by decide, by decide, ?_⟩, ?_, ?_⟩
  · exact trade_failure_isolation.1 1755 4000 "NIFTY24OCTFUT" "NFO"
      (fun i : ℕ => i != 2) 1 (by decide) (by decide) (by decide) (by decide) (by decide)
  · exact trade_failure_isolation.2.1 (fun _ => false) true "YES" "NIFTY24OCTFUT"
      "NFO" (-260) 0 (some 100) 25 1 "SELL" 65 ⟨"NIFTY24OCTFUT", pyUpper "NFO", none⟩
      hdec hfail
  · exact (trade_failure_isolation.2.2 (fun _ => false)
      [⟨"AAA", "NFO", 10, 0⟩, ⟨"BBB", "NFO", -5, 0⟩]).2
